import Mathlib

/-!
Verification development for the Agent 86 repository (`src/agent.py`,
`src/tools.py`): a single-agent loop that plans tasks with a language model,
parses tool calls out of model text, executes shell/HTTP tools and records a
reasoning trace.

The Python code is shallowly embedded below.  Python strings are modelled as
`List Char` (Python `str` operations act on code points); the external
collaborators (the llama.cpp engine, `subprocess.run`, `requests.get/post`)
are modelled as oracles supplied through a `World` structure, exactly at the
interface the code uses them.  All definitions are executable.
-/

namespace Agent86

/-! ## Python string primitives (code-point level) -/

/-- The backslash character (spelled via its code point). -/
def bslash : Char := Char.ofNat 92

/-- The double-quote character `"` (code point 34). -/
def dquote : Char := Char.ofNat 34

/-- The single-quote character (code point 39). -/
def squote : Char := Char.ofNat 39

/-- Characters stripped by Python `str.strip()` and matched by the regex
class `\s` (ASCII fragment): space, tab, newline, carriage return, form
feed, vertical tab. -/
def isPyWs (c : Char) : Bool :=
  c = ' ' || c = '\t' || c = '\n' || c = '\r' || c = Char.ofNat 11 || c = Char.ofNat 12

/-- Python `str.strip()`: drop `isPyWs` characters from both ends. -/
def pyStrip (s : List Char) : List Char :=
  ((s.dropWhile isPyWs).reverse.dropWhile isPyWs).reverse

/-- Python `str.lower()` (ASCII fragment). -/
def pyLower (s : List Char) : List Char := s.map Char.toLower

/-- `listStartsWith pre s` is Python `s.startswith(pre)`. -/
def listStartsWith : List Char → List Char → Bool
  | [], _ => true
  | _ :: _, [] => false
  | p :: ps, c :: cs => p = c && listStartsWith ps cs

/-- Python `sub in s` (substring containment). -/
def pyContains (sub : List Char) : List Char → Bool
  | [] => listStartsWith sub []
  | c :: cs => listStartsWith sub (c :: cs) || pyContains sub cs

/-- One step of Python `s.split(sep)` for a non-empty separator `sep`.
`acc` holds the current piece reversed; `fuel` bounds the number of scanning
steps (each step consumes at least one character, so `s.length + 1` always
suffices at the top call). -/
def pySplitAux (sep : List Char) (fuel : Nat) (cs : List Char) (acc : List Char) :
    List (List Char) :=
  match fuel with
  | 0 => [acc.reverse ++ cs]
  | fuel + 1 =>
    if listStartsWith sep cs then
      acc.reverse :: pySplitAux sep fuel (cs.drop sep.length) []
    else
      match cs with
      | [] => [acc.reverse]
      | c :: t => pySplitAux sep fuel t (c :: acc)

/-- Python `s.split(sep)` for a non-empty string separator. -/
def pySplit (sep s : List Char) : List (List Char) :=
  pySplitAux sep (s.length + 1) s []

/-- Python `s.split(sep, 1)[1]` when `sep` is a single character known to
occur in `s` (the code only evaluates it under a guard that guarantees the
separator is present; on absent separator this total model returns `[]`). -/
def afterFirstChar (sep : Char) (s : List Char) : List Char :=
  (s.dropWhile (fun c => !(c = sep))).drop 1

/-! ## Data model (`agent.py` / `tools.py` pydantic models) -/

/-- `Task` from `agent.py`: id, description, status
(`pending`/`in-progress`/`completed`/`failed`). -/
structure Task where
  id : Nat
  description : List Char
  status : List Char := "pending".data
  deriving Repr, DecidableEq

/-- `ReasoningStep` from `agent.py`. -/
structure ReasoningStep where
  thought : List Char
  action : Option (List Char) := none
  observation : Option (List Char) := none
  deriving Repr, DecidableEq

/-- `ToolResult` from `tools.py`. -/
structure ToolResult where
  success : Bool
  output : List Char
  error : Option (List Char) := none
  deriving Repr, DecidableEq

/-- A parsed tool call: the dictionaries `{"name": ..., "args": ...}` built
by `Agent._parse_tool_calls`.  `args` is a Python dict, modelled as an
insertion-ordered association list with unique keys. -/
structure ToolCall where
  name : List Char
  args : List (List Char × List Char)
  deriving Repr, DecidableEq

/-- Python `dict` assignment `d[k] = v`: overwrite in place if the key
exists, otherwise append. -/
def dictInsert (d : List (List Char × List Char)) (k v : List Char) :
    List (List Char × List Char) :=
  if d.any (fun p => p.1 = k) then
    d.map (fun p => if p.1 = k then (k, v) else p)
  else d ++ [(k, v)]

/-- Python `d.get(k, default)` (keys are unique, so first match). -/
def dictGet (d : List (List Char × List Char)) (k dflt : List Char) : List Char :=
  match d.find? (fun p => p.1 = k) with
  | some p => p.2
  | none => dflt

/-! ## Tool adapters (`tools.py`)

`subprocess.run` and `requests.get/post` are external; their outcome for one
invocation is modelled as a sum type supplied by the environment. -/

/-- Outcome of one `subprocess.run(command, shell=True, ...)` call:
normal return (exit code, stdout, stderr), `TimeoutExpired`, or some other
caught exception rendered as `str(e)`. -/
inductive SubprocessOutcome where
  | ok (returncode : Int) (stdout stderr : List Char)
  | timeout
  | exn (msg : List Char)
  deriving Repr, DecidableEq

/-- Outcome of one `requests.get`/`requests.post` call (with
`raise_for_status` applied): body text on success, `Timeout`, or a
`RequestException` rendered as `str(e)`. -/
inductive HttpOutcome where
  | ok (body : List Char)
  | timeout
  | exn (msg : List Char)
  deriving Repr, DecidableEq

/-- `TerminalTool.execute` from `tools.py`. -/
def TerminalTool.execute (enabled : Bool) (timeout : Nat)
    (outcome : SubprocessOutcome) : ToolResult :=
  if !enabled then
    { success := false, output := [], error := some "Terminal tool is disabled".data }
  else
    match outcome with
    | .ok rc out err =>
      let success := rc = 0
      { success := success
        output := pyStrip out
        error := if success then none else some (pyStrip err) }
    | .timeout =>
      { success := false, output := []
        error := some (("Command timed out after ".data ++ (Nat.repr timeout).data
          ++ " seconds".data)) }
    | .exn msg =>
      { success := false, output := [], error := some msg }

/-- `InternetTool.get` from `tools.py` (body truncated to 5000 characters). -/
def InternetTool.get (enabled : Bool) (timeout : Nat)
    (outcome : HttpOutcome) : ToolResult :=
  if !enabled then
    { success := false, output := [], error := some "Internet tool is disabled".data }
  else
    match outcome with
    | .ok body =>
      { success := true, output := body.take 5000, error := none }
    | .timeout =>
      { success := false, output := []
        error := some (("Request timed out after ".data ++ (Nat.repr timeout).data
          ++ " seconds".data)) }
    | .exn msg =>
      { success := false, output := [], error := some msg }

/-- `InternetTool.post` from `tools.py` (same shape as `get`). -/
def InternetTool.post (enabled : Bool) (timeout : Nat)
    (outcome : HttpOutcome) : ToolResult :=
  if !enabled then
    { success := false, output := [], error := some "Internet tool is disabled".data }
  else
    match outcome with
    | .ok body =>
      { success := true, output := body.take 5000, error := none }
    | .timeout =>
      { success := false, output := []
        error := some (("Request timed out after ".data ++ (Nat.repr timeout).data
          ++ " seconds".data)) }
    | .exn msg =>
      { success := false, output := [], error := some msg }

/-! ## Tool-call parser (`Agent._parse_tool_calls`)

The Python method combines two `re.findall` passes (marked and unmarked
candidates), a `re.match` per candidate, and a hand-rolled character
scanner for the argument list.  Each regex is specific enough to be
deterministic (no observable backtracking), so it is embedded as a direct
scanning function. -/

/-- Python `\w` / `str.isalnum() or c == '_'`: key and call-name characters. -/
def isWordChar (c : Char) : Bool := c.isAlphanum || c = '_'

/-- The separators skipped between arguments: `' ,\t\n'`. -/
def isArgSep (c : Char) : Bool := c = ' ' || c = ',' || c = '\t' || c = '\n'

/-- The whitespace skipped around `=` and before the opening quote:
`' \t\n'`. -/
def isArgWs (c : Char) : Bool := c = ' ' || c = '\t' || c = '\n'

/-- The value scan of `_parse_tool_calls`: starting just after the opening
quote, advance until the active quote character `q` reappears not
immediately preceded by a backslash; `prev` is the character before the
current position (initially the opening quote itself).  Returns the value
characters and the remainder after the closing quote; if no closing quote
occurs, the whole remainder is the value (the Python loop then stores it and
terminates). -/
def scanValue (q prev : Char) : List Char → List Char × List Char
  | [] => ([], [])
  | c :: cs =>
    if c = q && !(prev = bslash) then ([], cs)
    else
      let r := scanValue q c cs
      (c :: r.1, r.2)

/-- The `while i < len(args_str)` loop of `_parse_tool_calls`: skip
separators, read a key, require `=`, require an opening quote, scan the
value, store it, repeat.  Any malformed remainder stops the loop, keeping
the arguments parsed so far.  `fuel` bounds the number of loop iterations;
every iteration that stores a value consumes at least the `=` and the
opening quote, so `length + 1` fuel is never exhausted. -/
def parseArgsLoop (fuel : Nat) (cs : List Char)
    (acc : List (List Char × List Char)) : List (List Char × List Char) :=
  match fuel with
  | 0 => acc
  | fuel + 1 =>
    let cs0 := cs.dropWhile isArgSep
    if cs0.isEmpty then acc
    else
      let key := cs0.takeWhile isWordChar
      let cs1 := cs0.dropWhile isWordChar
      if cs1.isEmpty then acc
      else
        let cs2 := cs1.dropWhile isArgWs
        match cs2 with
        | [] => acc
        | c :: cs3 =>
          if !(c = '=') then acc
          else
            let cs4 := cs3.dropWhile isArgWs
            match cs4 with
            | [] => acc
            | q :: cs5 =>
              if !(q = dquote || q = squote) then acc
              else
                let v := scanValue q q cs5
                parseArgsLoop fuel v.2 (dictInsert acc key v.1)

/-- The argument scanner of `_parse_tool_calls` applied to the text between
the call's parentheses. -/
def parse_args (cs : List Char) : List (List Char × List Char) :=
  parseArgsLoop (cs.length + 1) cs []

/-- The sentinel opening a tool call in the LFM2.5 wire format. -/
def startMarker : List Char := "<|tool_call_start|>".data

/-- The sentinel closing a tool call in the LFM2.5 wire format. -/
def endMarker : List Char := "<|tool_call_end|>".data

/-- The lazy `(.*?)\]\s*<\|tool_call_end\|\>` part of the marked pattern:
take the shortest inner text such that a `]`, optional whitespace and the
end marker follow.  `acc` holds the inner text read so far, reversed.
Returns the inner text and the remainder after the end marker. -/
def lazyClose (cs acc : List Char) : Option (List Char × List Char) :=
  match cs with
  | [] => none
  | c :: rest =>
    if c = ']' then
      let r1 := rest.dropWhile isPyWs
      if listStartsWith endMarker r1 then some (acc.reverse, r1.drop endMarker.length)
      else lazyClose rest (c :: acc)
    else lazyClose rest (c :: acc)

/-- Attempt the remainder of the marked pattern right after an occurrence of
the start marker: `\s*\[`, then the lazy close. -/
def tryMarked (cs : List Char) : Option (List Char × List Char) :=
  match cs.dropWhile isPyWs with
  | '[' :: cs2 => lazyClose cs2 []
  | _ => none

/-- `re.findall` of the marked pattern
`<\|tool_call_start\|\>\s*\[(.*?)\]\s*<\|tool_call_end\|\>` (DOTALL):
left-to-right, non-overlapping; a failed attempt resumes scanning one
character further.  `fuel` bounds the scan steps (each step consumes at
least one character, so `length + 1` suffices). -/
def findMarkedAux (fuel : Nat) (cs : List Char) : List (List Char) :=
  match fuel with
  | 0 => []
  | fuel + 1 =>
    if listStartsWith startMarker cs then
      match tryMarked (cs.drop startMarker.length) with
      | some r => r.1 :: findMarkedAux fuel r.2
      | none => findMarkedAux fuel (cs.drop 1)
    else
      match cs with
      | [] => []
      | _ :: t => findMarkedAux fuel t

/-- All captures of the marked pattern in a response. -/
def findMarked (cs : List Char) : List (List Char) :=
  findMarkedAux (cs.length + 1) cs

/-- The lazy `(.*?)\)\]` part of the fallback pattern: shortest content such
that `)]` follows.  Returns the content and the remainder after `)]`. -/
def lazyParen (cs acc : List Char) : Option (List Char × List Char) :=
  match cs with
  | ')' :: ']' :: rest => some (acc.reverse, rest)
  | [] => none
  | c :: rest => lazyParen rest (c :: acc)

/-- Attempt the fallback pattern right after a `[`: `(\w+)\s*\(` then the
lazy paren close.  Returns call name, argument text and remainder. -/
def tryBracket (cs : List Char) : Option (List Char × List Char × List Char) :=
  let nm := cs.takeWhile isWordChar
  if nm.isEmpty then none
  else
    match (cs.dropWhile isWordChar).dropWhile isPyWs with
    | '(' :: cs2 =>
      match lazyParen cs2 [] with
      | some r => some (nm, r.1, r.2)
      | none => none
    | _ => none

/-- `re.findall` of the fallback pattern `\[(\w+)\s*\((.*?)\)\]` (DOTALL),
used when the marked pattern yields no matches. -/
def findBracketAux (fuel : Nat) (cs : List Char) : List (List Char × List Char) :=
  match fuel with
  | 0 => []
  | fuel + 1 =>
    match cs with
    | [] => []
    | '[' :: rest =>
      match tryBracket rest with
      | some r => (r.1, r.2.1) :: findBracketAux fuel r.2.2
      | none => findBracketAux fuel rest
    | _ :: rest => findBracketAux fuel rest

/-- All (name, args) captures of the fallback pattern in a response. -/
def findBracket (cs : List Char) : List (List Char × List Char) :=
  findBracketAux (cs.length + 1) cs

/-- The content before the last `)` of `cs`, or `none` when `cs` has no
`)`: the greedy `\((.*)\)` tail of `re.match(r'(\w+)\s*\((.*)\)', ...)`
(a prefix match, so trailing text after the last `)` is ignored). -/
def splitAtLastParen (cs : List Char) : Option (List Char) :=
  match cs.reverse.dropWhile (fun c => !(c = ')')) with
  | [] => none
  | _ :: rest => some rest.reverse

/-- `re.match(r'(\w+)\s*\((.*)\)', candidate, re.DOTALL)`: leading call
name, optional whitespace, parenthesized argument blob (up to the last
closing paren). -/
def funcMatch (cs : List Char) : Option (List Char × List Char) :=
  let nm := cs.takeWhile isWordChar
  if nm.isEmpty then none
  else
    match (cs.dropWhile isWordChar).dropWhile isPyWs with
    | '(' :: cs2 =>
      match splitAtLastParen cs2 with
      | some args => some (nm, args)
      | none => none
    | _ => none

/-- The body of the `for match in matches` loop of `_parse_tool_calls`:
match the candidate as `name(args)`, scan the arguments, and append a
`ToolCall` only when the name is exactly `terminal` or `internet`. -/
def processCandidate (acc : List ToolCall) (m : List Char) : List ToolCall :=
  match funcMatch (pyStrip m) with
  | none => acc
  | some f =>
    let args := parse_args f.2
    if f.1 = "terminal".data || f.1 = "internet".data then
      acc ++ [{ name := f.1, args := args }]
    else acc

/-- `Agent._parse_tool_calls`: marked pass, fallback pass (reformatted to
`name(args)`), then the per-candidate loop. -/
def parse_tool_calls (response : List Char) : List ToolCall :=
  let ms := findMarked response
  let ms := if ms.isEmpty then
      (findBracket response).map (fun p => p.1 ++ '(' :: (p.2 ++ [')']))
    else ms
  ms.foldl processCandidate []

/-! ## Agent configuration, external world, and mutable state -/

/-- The `Settings` fields the agent loop reads. -/
structure Config where
  maxIterations : Nat
  maxReasoningSteps : Nat
  enableTerminal : Bool
  enableInternet : Bool

/-- The external collaborators, by interface: `gen n` is the text returned
by the n-th `llm_engine.generate` call of the process (the engine is a
black box and its context is reset before every call); `subproc c` is the
outcome of `subprocess.run c`; `http u` the outcome of `requests.get u`. -/
structure World where
  gen : Nat → List Char
  subproc : List Char → SubprocessOutcome
  http : List Char → HttpOutcome

/-- The mutable fields of an `Agent` instance, plus the generation-call
counter used to index the engine oracle. -/
structure AgentState where
  tasks : List Task
  steps : List ReasoningStep
  iterationCount : Nat
  genCount : Nat
  deriving Repr, DecidableEq

/-- The state established by `Agent.__init__`. -/
def initialAgentState : AgentState :=
  { tasks := [], steps := [], iterationCount := 0, genCount := 0 }

/-- One `llm_engine.generate` call: consume the next oracle response. -/
def genStep (w : World) (s : AgentState) : List Char × AgentState :=
  (w.gen s.genCount, { s with genCount := s.genCount + 1 })

/-- Python f-string interpolation of an `Optional[str]` (`None` prints as
`"None"`). -/
def pyOptStr : Option (List Char) → List Char
  | some e => e
  | none => "None".data

/-- `Agent._execute_tool_call`: case-normalize the name, dispatch to the
matching adapter, render everything as text (never raises). -/
def execute_tool_call (cfg : Config) (w : World) (call : ToolCall) : List Char :=
  let name := pyLower call.name
  if name = "terminal".data then
    let command := dictGet call.args "command".data []
    if command.isEmpty then "Error: command parameter required".data
    else
      let r := TerminalTool.execute cfg.enableTerminal 30 (w.subproc command)
      if r.success then "Command executed successfully:\n".data ++ r.output
      else "Command failed: ".data ++ pyOptStr r.error
  else if name = "internet".data then
    let url := dictGet call.args "url".data []
    if url.isEmpty then "Error: url parameter required".data
    else
      let r := InternetTool.get cfg.enableInternet 10 (w.http url)
      if r.success then "Response received:\n".data ++ r.output.take 500
      else "Request failed: ".data ++ pyOptStr r.error
  else "Unknown tool: ".data ++ name

/-- `Agent._execute_action`: the loose colon-delimited action path. -/
def execute_action (cfg : Config) (w : World) (actionText : List Char) : List Char :=
  let lower := pyLower actionText
  if lower = "complete".data then "Task marked as complete".data
  else if listStartsWith "terminal:".data lower then
    let command := pyStrip (afterFirstChar ':' actionText)
    let r := TerminalTool.execute cfg.enableTerminal 30 (w.subproc command)
    if r.success then "Command output: ".data ++ r.output
    else "Command failed: ".data ++ pyOptStr r.error
  else if listStartsWith "internet:".data lower then
    let url := pyStrip (afterFirstChar ':' actionText)
    let r := InternetTool.get cfg.enableInternet 10 (w.http url)
    if r.success then "Response (truncated): ".data ++ r.output.take 300
    else "Request failed: ".data ++ pyOptStr r.error
  else "Unknown action: ".data ++ actionText

/-! ## Task planner (`Agent.create_task_list`) -/

/-- The `for i, line in enumerate(task_text.split("\n"), 1)` extraction
pass: line `i` (1-based position among all lines) is accepted exactly when
its stripped form is non-empty and starts with the literal `Task i:`; the
description is the text after the first colon, stripped. -/
def parseTaskLines : List (List Char) → Nat → List Task
  | [], _ => []
  | line :: rest, i =>
    if !(pyStrip line).isEmpty
        && listStartsWith ("Task ".data ++ (Nat.repr i).data ++ [':']) (pyStrip line) then
      { id := i, description := pyStrip (afterFirstChar ':' line) } :: parseTaskLines rest (i + 1)
    else parseTaskLines rest (i + 1)

/-- The full extraction over a generated text block. -/
def extract_tasks (text : List Char) : List Task :=
  parseTaskLines (pySplit ['\n'] text) 1

/-- `Agent.create_task_list`: one generation (the goal only shapes the
prompt sent to the black-box engine), the `<|im_start|>assistant` tail
split, the extraction pass, and the `self.tasks` assignment. -/
def create_task_list (w : World) (goal : List Char) (s : AgentState) :
    List Task × AgentState :=
  let g := genStep w s
  let marker := "<|im_start|>assistant".data
  let taskText :=
    if pyContains marker g.1 then pyStrip ((pySplit marker g.1).getLastD [])
    else g.1
  let tasks := extract_tasks taskText
  (tasks, { g.2 with tasks := tasks })

/-! ## Reasoning step (`Agent.reason_and_act`) and the run loop -/

/-- `Agent.reason_and_act`: generate, parse tool calls; with calls present
execute each (accumulating the observation text and keeping the last call's
name as the action) and regenerate for the final thought; with no calls the
step completes with the fixed observation.  The produced step is appended
to `reasoning_steps`.  The task argument only shapes the prompt. -/
def reason_and_act (cfg : Config) (w : World) (task : Task) (s : AgentState) :
    ReasoningStep × AgentState :=
  let g := genStep w s
  let fullResponse := pyStrip g.1
  match parse_tool_calls fullResponse with
  | [] =>
    let step : ReasoningStep :=
      { thought := fullResponse, action := some "complete".data
        observation := some "Task reasoning completed".data }
    (step, { g.2 with steps := g.2.steps ++ [step] })
  | tc :: tcs =>
    let oa := (tc :: tcs).foldl
      (fun (oa : List Char × List Char) c =>
        (oa.1 ++ '\n' :: (c.name ++ ": ".data ++ execute_tool_call cfg w c), c.name))
      ([], "complete".data)
    let g2 := genStep w g.2
    let step : ReasoningStep :=
      { thought := pyStrip g2.1, action := some oa.2, observation := some oa.1 }
    (step, { g2.2 with steps := g2.2.steps ++ [step] })

/-- Replace the most recently appended reasoning step: the Python code
mutates the aliased step object (and reassigns `reasoning_steps[-1]`). -/
def setLast (l : List ReasoningStep) (x : ReasoningStep) : List ReasoningStep :=
  l.dropLast ++ [x]

/-- The `for step_num in range(max_reasoning_steps)` loop body of
`Agent.run` for one task: check the shared iteration budget, increment it,
take a reasoning step, then dispatch on the step's action (the observation
rewrite applies to the step already recorded in the trace, via aliasing).
`fuel` starts at `max_reasoning_steps`. -/
def taskLoop (cfg : Config) (w : World) (fuel : Nat) (task : Task)
    (s : AgentState) : Task × AgentState :=
  match fuel with
  | 0 => (task, s)
  | fuel + 1 =>
    if cfg.maxIterations ≤ s.iterationCount then (task, s)
    else
      let r := reason_and_act cfg w task { s with iterationCount := s.iterationCount + 1 }
      let step := r.1
      let s1 := r.2
      match step.action with
      | some a =>
        if !a.isEmpty && !(a = "complete".data) && !(a = "terminal".data)
            && !(a = "internet".data) then
          let obs := execute_action cfg w (a ++ ": ".data ++ step.thought)
          let step := { step with observation := some obs }
          taskLoop cfg w fuel task { s1 with steps := setLast s1.steps step }
        else if a = "terminal".data then
          let obs := execute_action cfg w ("terminal: ".data ++ step.thought)
          let step := { step with observation := some obs }
          taskLoop cfg w fuel task { s1 with steps := setLast s1.steps step }
        else if a = "internet".data then
          let obs := execute_action cfg w ("internet: ".data ++ step.thought)
          let step := { step with observation := some obs }
          taskLoop cfg w fuel task { s1 with steps := setLast s1.steps step }
        else if a = "complete".data then
          let step := { step with observation := some "Task marked as complete".data }
          ({ task with status := "completed".data },
           { s1 with steps := setLast s1.steps step })
        else
          -- empty action string: no branch fires, the trailing
          -- reassignment leaves the recorded step unchanged
          taskLoop cfg w fuel task { s1 with steps := setLast s1.steps step }
      | none =>
        taskLoop cfg w fuel task { s1 with steps := setLast s1.steps step }

/-- One task of `Agent.run`: mark it in-progress, run the reasoning loop,
and mark it failed if it did not complete. -/
def runTask (cfg : Config) (w : World) (task : Task) (s : AgentState) :
    Task × AgentState :=
  let r := taskLoop cfg w cfg.maxReasoningSteps { task with status := "in-progress".data } s
  (if !(r.1.status = "completed".data) then { r.1 with status := "failed".data } else r.1,
   r.2)

/-- The `for task in tasks` loop of `Agent.run`. -/
def processTasks (cfg : Config) (w : World) :
    List Task → AgentState → List Task × AgentState
  | [], s => ([], s)
  | t :: ts, s =>
    let r := runTask cfg w t s
    let rs := processTasks cfg w ts r.2
    (r.1 :: rs.1, rs.2)

/-- The results dictionary assembled at the end of `Agent.run`. -/
structure RunResult where
  goal : List Char
  tasks : List Task
  reasoning_steps : List ReasoningStep
  iterations : Nat
  success : Bool
  deriving Repr, DecidableEq

/-- `Agent.run`: plan, process every task, assemble the results. -/
def Agent.run (cfg : Config) (w : World) (goal : List Char) (s : AgentState) :
    RunResult × AgentState :=
  let ct := create_task_list w goal s
  let pt := processTasks cfg w ct.1 ct.2
  ({ goal := goal, tasks := pt.1, reasoning_steps := pt.2.steps
     iterations := pt.2.iterationCount
     success := pt.1.all (fun t => t.status = "completed".data) }, pt.2)

/-- The invariant package proved about one run of the per-task loop:
trace extension, iteration monotonicity and ceiling, at most two
generations per iteration consumed, task-list field preservation, and
inertness on an exhausted budget. -/
def LoopInv (cfg : Config) (w : World) (fuel : Nat) (task : Task) (s : AgentState) : Prop :=
  (∃ t, (taskLoop cfg w fuel task s).2.steps = s.steps ++ t)
  ∧ s.iterationCount ≤ (taskLoop cfg w fuel task s).2.iterationCount
  ∧ (taskLoop cfg w fuel task s).2.iterationCount ≤ max s.iterationCount cfg.maxIterations
  ∧ (taskLoop cfg w fuel task s).2.genCount + 2 * s.iterationCount
      ≤ s.genCount + 2 * (taskLoop cfg w fuel task s).2.iterationCount
  ∧ (taskLoop cfg w fuel task s).2.tasks = s.tasks
  ∧ (cfg.maxIterations ≤ s.iterationCount → taskLoop cfg w fuel task s = (task, s))

/-- The invariant package proved about the whole `for task in tasks` loop:
like `LoopInv`, plus every processed task ends `completed` or `failed`. -/
def ProcInv (cfg : Config) (w : World) (ts : List Task) (s : AgentState) : Prop :=
  (∃ t, (processTasks cfg w ts s).2.steps = s.steps ++ t)
  ∧ s.iterationCount ≤ (processTasks cfg w ts s).2.iterationCount
  ∧ (processTasks cfg w ts s).2.iterationCount ≤ max s.iterationCount cfg.maxIterations
  ∧ (processTasks cfg w ts s).2.genCount + 2 * s.iterationCount
      ≤ s.genCount + 2 * (processTasks cfg w ts s).2.iterationCount
  ∧ (cfg.maxIterations ≤ s.iterationCount → (processTasks cfg w ts s).2 = s)
  ∧ (∀ x ∈ (processTasks cfg w ts s).1,
      x.status = "completed".data ∨ x.status = "failed".data)

/-! ## Shared concrete configurations and worlds for concrete evaluations -/

/-- The default `Settings` values read by the agent loop. -/
def cfg0 : Config :=
  { maxIterations := 10, maxReasoningSteps := 5
    enableTerminal := true, enableInternet := true }

/-- A concrete benign world: every command prints `a.txt`, every request
returns `hello`, the engine returns empty text. -/
def w0 : World :=
  { gen := fun _ => []
    subproc := fun _ => .ok 0 "a.txt".data []
    http := fun _ => .ok "hello".data }

/-- A configuration with a budget of one iteration. -/
def cfgOne : Config :=
  { maxIterations := 1, maxReasoningSteps := 3
    enableTerminal := true, enableInternet := true }

/-- A world whose engine plans one task and then emits one tool call: call
0 answers the planner, call 1 answers the first reasoning step with a
bracketed terminal call, and every later call returns plain text. -/
def wPlan : World :=
  { gen := fun n =>
      if n = 0 then "Task 1: list files".data
      else if n = 1 then "[terminal(command=\"ls\")]".data
      else "Files listed.".data
    subproc := fun _ => .ok 0 "a.txt".data []
    http := fun _ => .ok "hello".data }

/-- A world whose engine always answers with plain text and no tool call. -/
def wPlain : World :=
  { gen := fun n =>
      if n = 0 then "Task 1: check the tool".data
      else "All done.".data
    subproc := fun _ => .ok 0 "a.txt".data []
    http := fun _ => .ok "hello".data }

/-- A configuration with a zero iteration budget. -/
def cfgZero : Config :=
  { maxIterations := 0, maxReasoningSteps := 5
    enableTerminal := true, enableInternet := true }

/-! ## Lemmas about the argument scanner -/

/-- `hasUnescClose q prev cs` holds when `cs` contains an occurrence of the
quote `q` that would close a value scan arriving with previous character
`prev`: an occurrence not immediately preceded by a backslash. -/
def hasUnescClose (q prev : Char) : List Char → Bool
  | [] => false
  | c :: cs => (c = q && !(prev = bslash)) || hasUnescClose q c cs

/-- The value scan stops exactly at the next unescaped active-kind quote:
if no character of `v` closes the scan and the quote after `v` is not
preceded by a backslash, the scanned value is exactly `v` and the scan
resumes right after that quote. -/
theorem scanValue_closes (q : Char) : ∀ (v : List Char) (prev : Char) (rest : List Char),
    hasUnescClose q prev v = false → ¬(v.getLastD prev = bslash) →
    scanValue q prev (v ++ q :: rest) = (v, rest) := by
  intro v
  induction v with
  | nil =>
    intro prev rest _ hlast
    simp [List.getLastD] at hlast
    simp [scanValue, hlast]
  | cons c v ih =>
    intro prev rest hcl hlast
    simp only [hasUnescClose, Bool.or_eq_false_iff] at hcl
    simp only [List.getLastD_cons] at hlast
    simp only [List.cons_append, scanValue, hcl.1, Bool.false_eq_true, if_false]
    simp [ih c rest hcl.2 hlast]

/-- A string containing no active-kind quote cannot close the scan. -/
theorem hasUnescClose_not_mem (q : Char) (v : List Char) :
    ∀ prev, (∀ c ∈ v, ¬(c = q)) → hasUnescClose q prev v = false := by
  induction v with
  | nil => intro prev _; rfl
  | cons c v ih =>
    intro prev h
    simp only [hasUnescClose, Bool.or_eq_false_iff]
    refine ⟨?_, ih c (fun x hx => h x (List.mem_cons_of_mem c hx))⟩
    have := h c (List.mem_cons_self c v)
    simp [this]

/-- A backslash-free string (with a backslash-free default) has a
backslash-free last character. -/
theorem getLastD_not_bslash (v : List Char) :
    ∀ d, (∀ c ∈ v, ¬(c = bslash)) → ¬(d = bslash) → ¬(v.getLastD d = bslash) := by
  induction v with
  | nil => intro d _ hd; simpa [List.getLastD] using hd
  | cons c v ih =>
    intro d h _
    simp only [List.getLastD_cons]
    exact ih c (fun x hx => h x (List.mem_cons_of_mem c hx)) (h c (List.mem_cons_self c v))

/-- The argument loop on an exhausted input returns the arguments collected
so far. -/
theorem parseArgsLoop_nil (fuel : Nat) (acc : List (List Char × List Char)) :
    parseArgsLoop fuel [] acc = acc := by
  cases fuel <;> simp [parseArgsLoop]

/-- A single `command` argument whose content contains neither the active
quote kind nor a backslash parses to exactly that content, for either quote
kind. -/
theorem parse_args_quoted (q : Char) (hq : q = dquote ∨ q = squote) (s : List Char)
    (hs : ∀ c ∈ s, ¬(c = q) ∧ ¬(c = bslash)) :
    parse_args ("command=".data ++ q :: s ++ [q]) = [("command".data, s)] := by
  have hqs : ¬(q = bslash) := by rcases hq with h | h <;> subst h <;> decide
  have hscan : scanValue q q (s ++ q :: []) = (s, []) :=
    scanValue_closes q s q []
      (hasUnescClose_not_mem q s q (fun c hc => (hs c hc).1))
      (getLastD_not_bslash s q (fun c hc => (hs c hc).2) hqs)
  rcases hq with h | h <;> subst h
  · show parseArgsLoop (('c' :: 'o' :: 'm' :: 'm' :: 'a' :: 'n' :: 'd' :: '=' :: dquote :: (s ++ [dquote])).length)
        (scanValue dquote dquote (s ++ [dquote])).2
        (dictInsert [] ('c' :: 'o' :: 'm' :: 'm' :: 'a' :: 'n' :: 'd' :: []) (scanValue dquote dquote (s ++ [dquote])).1)
        = [("command".data, s)]
    rw [hscan]
    exact parseArgsLoop_nil _ _
  · show parseArgsLoop (('c' :: 'o' :: 'm' :: 'm' :: 'a' :: 'n' :: 'd' :: '=' :: squote :: (s ++ [squote])).length)
        (scanValue squote squote (s ++ [squote])).2
        (dictInsert [] ('c' :: 'o' :: 'm' :: 'm' :: 'a' :: 'n' :: 'd' :: []) (scanValue squote squote (s ++ [squote])).1)
        = [("command".data, s)]
    rw [hscan]
    exact parseArgsLoop_nil _ _

/-! ## Claim theorems -/

/-- C6: every `ToolResult` produced by `TerminalTool.execute`,
`InternetTool.get` and `InternetTool.post` — disabled, success, failure,
timeout or caught exception — has `error` present exactly when `success`
is false. -/
theorem C6_toolresult_error_iff (et ei ep : Bool) (tt ti tp : Nat)
    (so : SubprocessOutcome) (hg hp : HttpOutcome) :
    ((TerminalTool.execute et tt so).error.isSome
        ↔ (TerminalTool.execute et tt so).success = false)
    ∧ ((InternetTool.get ei ti hg).error.isSome
        ↔ (InternetTool.get ei ti hg).success = false)
    ∧ ((InternetTool.post ep tp hp).error.isSome
        ↔ (InternetTool.post ep tp hp).success = false) := by
  refine ⟨?_, ?_, ?_⟩
  · cases et <;> cases so <;> simp [TerminalTool.execute]
  · cases ei <;> cases hg <;> simp [InternetTool.get]
  · cases ep <;> cases hp <;> simp [InternetTool.post]

/-- C2: a tool-call argument value may be delimited by either quote kind;
the stored value is the exact substring between the opening quote and the
next same-kind quote not immediately preceded by a backslash (part 1);
single- and double-quoted versions of the same quote-free content parse to
identical values (part 2); interior other-kind quotes are kept verbatim
(part 3, the `find . -name '*.txt' -type f` example); a backslash prevents
a same-kind quote from closing the value and is itself retained (part 4). -/
theorem C2_argument_scanner :
    (∀ (q prev : Char) (v rest : List Char), q = dquote ∨ q = squote →
        hasUnescClose q prev v = false → ¬(v.getLastD prev = bslash) →
        scanValue q prev (v ++ q :: rest) = (v, rest))
    ∧ (∀ s : List Char,
        (∀ c ∈ s, ¬(c = dquote) ∧ ¬(c = squote) ∧ ¬(c = bslash)) →
        parse_args ("command=".data ++ dquote :: s ++ [dquote])
            = parse_args ("command=".data ++ squote :: s ++ [squote])
        ∧ parse_args ("command=".data ++ dquote :: s ++ [dquote]) = [("command".data, s)])
    ∧ parse_args ("command=".data ++ dquote ::
          ("find . -name ".data ++ squote :: "*.txt".data ++ squote :: " -type f".data)
          ++ [dquote])
        = [("command".data,
            "find . -name ".data ++ squote :: "*.txt".data ++ squote :: " -type f".data)]
    ∧ parse_args ("command=".data ++ [dquote, 'a', bslash, dquote, 'b', dquote])
        = [("command".data, ['a', bslash, dquote, 'b'])] := by
  refine ⟨?_, ?_, by decide, by decide⟩
  · intro q prev v rest _ h1 h2
    exact scanValue_closes q v prev rest h1 h2
  · intro s hs
    have h1 := parse_args_quoted dquote (Or.inl rfl) s
      (fun c hc => ⟨(hs c hc).1, (hs c hc).2.2⟩)
    have h2 := parse_args_quoted squote (Or.inr rfl) s
      (fun c hc => ⟨(hs c hc).2.1, (hs c hc).2.2⟩)
    exact ⟨h1.trans h2.symm, h1⟩

/-- Witness for C2 at concrete inputs: the scan of `ls` closes at the
double quote, and `ls -lah` parses identically under both quote kinds. -/
theorem C2_argument_scanner_witness :
    scanValue dquote dquote (['l','s'] ++ dquote :: []) = (['l','s'], [])
    ∧ parse_args ("command=".data ++ dquote :: "ls -lah".data ++ [dquote])
        = parse_args ("command=".data ++ squote :: "ls -lah".data ++ [squote]) :=
  ⟨C2_argument_scanner.1 dquote dquote ['l','s'] [] (Or.inl rfl) (by decide) (by decide),
   (C2_argument_scanner.2.1 "ls -lah".data (by decide)).1⟩

/-! ## Lemmas about the parser's name filter -/

/-- One candidate step only ever appends a call named `terminal` or
`internet`. -/
theorem processCandidate_names (acc : List ToolCall) (m : List Char)
    (h : ∀ tc ∈ acc, tc.name = "terminal".data ∨ tc.name = "internet".data) :
    ∀ tc ∈ processCandidate acc m,
      tc.name = "terminal".data ∨ tc.name = "internet".data := by
  intro tc htc
  unfold processCandidate at htc
  cases hfm : funcMatch (pyStrip m) with
  | none => rw [hfm] at htc; exact h tc htc
  | some f =>
    rw [hfm] at htc
    simp only at htc
    by_cases hname : (f.1 = "terminal".data || f.1 = "internet".data) = true
    · rw [if_pos hname] at htc
      rcases List.mem_append.mp htc with hmem | hmem
      · exact h tc hmem
      · simp only [List.mem_singleton] at hmem
        subst hmem
        simpa using hname
    · rw [if_neg hname] at htc
      exact h tc htc

/-- The candidate loop preserves the name invariant. -/
theorem foldl_processCandidate_names (ms : List (List Char)) :
    ∀ acc : List ToolCall,
    (∀ tc ∈ acc, tc.name = "terminal".data ∨ tc.name = "internet".data) →
    ∀ tc ∈ ms.foldl processCandidate acc,
      tc.name = "terminal".data ∨ tc.name = "internet".data := by
  induction ms with
  | nil => intro acc h; simpa using h
  | cons m ms ih =>
    intro acc h
    simp only [List.foldl_cons]
    exact ih (processCandidate acc m) (processCandidate_names acc m h)

/-- Every call surfaced by the parser is named `terminal` or `internet`. -/
theorem parse_tool_calls_names (response : List Char) :
    ∀ tc ∈ parse_tool_calls response,
      tc.name = "terminal".data ∨ tc.name = "internet".data := by
  unfold parse_tool_calls
  apply foldl_processCandidate_names
  simp

/-- C7: every `ToolCall` returned by the parser is named exactly
`terminal` or `internet`, and a candidate with any other name is silently
dropped (`[foo(x="1")]` parses to the empty list). -/
theorem C7_unknown_names_dropped :
    (∀ (response : List Char) (tc : ToolCall), tc ∈ parse_tool_calls response →
        tc.name = "terminal".data ∨ tc.name = "internet".data)
    ∧ parse_tool_calls "[foo(x=\"1\")]".data = [] :=
  ⟨fun response tc h => parse_tool_calls_names response tc h, by decide⟩

/-- Witness for C7: the call parsed from `[terminal(command="ls -la")]`
carries one of the two known names. -/
theorem C7_unknown_names_dropped_witness :
    ({ name := "terminal".data, args := [("command".data, "ls -la".data)] } : ToolCall).name
        = "terminal".data
    ∨ ({ name := "terminal".data, args := [("command".data, "ls -la".data)] } : ToolCall).name
        = "internet".data :=
  C7_unknown_names_dropped.1 "[terminal(command=\"ls -la\")]".data
    { name := "terminal".data, args := [("command".data, "ls -la".data)] } (by decide)

/-- C9: the parser's name filter is case-sensitive — any surviving call
whose lowercased name is `terminal`/`internet` already has that exact
lowercase name, `[Terminal(command="ls")]` parses to nothing — while the
executor lowercases the name first and would have dispatched the same call
to the terminal tool. -/
theorem C9_parser_case_sensitive :
    (∀ (response : List Char) (tc : ToolCall), tc ∈ parse_tool_calls response →
        pyLower tc.name = "terminal".data ∨ pyLower tc.name = "internet".data →
        tc.name = "terminal".data ∨ tc.name = "internet".data)
    ∧ parse_tool_calls "[Terminal(command=\"ls\")]".data = []
    ∧ execute_tool_call cfg0 w0 { name := "Terminal".data, args := [("command".data, "ls".data)] }
        = "Command executed successfully:\na.txt".data :=
  ⟨fun response tc h _ => parse_tool_calls_names response tc h, by decide, by decide⟩

/-- Witness for C9: the lowercase-named call parsed from
`[internet(url="https://e.com")]` instantiates the general part. -/
theorem C9_parser_case_sensitive_witness :
    ({ name := "internet".data, args := [("url".data, "https://e.com".data)] } : ToolCall).name
        = "terminal".data
    ∨ ({ name := "internet".data, args := [("url".data, "https://e.com".data)] } : ToolCall).name
        = "internet".data :=
  C9_parser_case_sensitive.1 "[internet(url=\"https://e.com\")]".data
    { name := "internet".data, args := [("url".data, "https://e.com".data)] }
    (by decide) (by decide)

/-- C4 (amended): `_execute_tool_call` dispatches on the lowercased call
name; missing/empty `command` or `url` yields the fixed error strings; the
success/failure formats are as claimed; any name whose lowercase is neither
`terminal` nor `internet` yields `Unknown tool: ` followed by the
lowercased name. -/
theorem C4_dispatch_format (cfg : Config) (w : World) (call : ToolCall) :
    (pyLower call.name = "terminal".data →
      (dictGet call.args "command".data [] = [] →
        execute_tool_call cfg w call = "Error: command parameter required".data)
      ∧ (¬(dictGet call.args "command".data [] = []) →
        execute_tool_call cfg w call =
          (let r := TerminalTool.execute cfg.enableTerminal 30
              (w.subproc (dictGet call.args "command".data []))
           if r.success then "Command executed successfully:\n".data ++ r.output
           else "Command failed: ".data ++ pyOptStr r.error)))
    ∧ (pyLower call.name = "internet".data →
      (dictGet call.args "url".data [] = [] →
        execute_tool_call cfg w call = "Error: url parameter required".data)
      ∧ (¬(dictGet call.args "url".data [] = []) →
        execute_tool_call cfg w call =
          (let r := InternetTool.get cfg.enableInternet 10
              (w.http (dictGet call.args "url".data []))
           if r.success then "Response received:\n".data ++ r.output.take 500
           else "Request failed: ".data ++ pyOptStr r.error)))
    ∧ (¬(pyLower call.name = "terminal".data) → ¬(pyLower call.name = "internet".data) →
        execute_tool_call cfg w call = "Unknown tool: ".data ++ pyLower call.name) := by
  refine ⟨?_, ?_, ?_⟩
  · intro hname
    constructor
    · intro hcmd
      simp [execute_tool_call, hname, hcmd]
    · intro hcmd
      simp [execute_tool_call, hname, List.isEmpty_iff, hcmd]
  · intro hname
    have hne : ¬(pyLower call.name = "terminal".data) := by
      rw [hname]; decide
    constructor
    · intro hurl
      simp [execute_tool_call, hname, hne, hurl]
    · intro hurl
      simp [execute_tool_call, hname, hne, List.isEmpty_iff, hurl]
  · intro h1 h2
    simp [execute_tool_call, h1, h2]

/-- Witness for C4 at a concrete call: `terminal` with no arguments
produces the missing-command error string. -/
theorem C4_dispatch_format_witness :
    execute_tool_call cfg0 w0 { name := "terminal".data, args := [] }
      = "Error: command parameter required".data :=
  ((C4_dispatch_format cfg0 w0 { name := "terminal".data, args := [] }).1
    (by decide)).1 (by decide)

/-- Counterexample for C4 as stated: the unknown-tool reply uses the
lowercased name (`Foo` answers `Unknown tool: foo`, not
`Unknown tool: Foo`), and a name differing from `terminal` only in case is
dispatched to the terminal branch instead of the unknown-tool reply. -/
theorem C4_dispatch_format_counterexample :
    execute_tool_call cfg0 w0 { name := "Foo".data, args := [] }
        = "Unknown tool: foo".data
    ∧ ¬("Unknown tool: foo".data = "Unknown tool: Foo".data)
    ∧ execute_tool_call cfg0 w0 { name := "Terminal".data, args := [] }
        = "Error: command parameter required".data := by decide

/-! ## Lemmas about the task-extraction pass -/

/-- Tasks extracted from the suffix of the line list starting at position
`i` carry ids at least `i`. -/
theorem parseTaskLines_id_ge : ∀ (lines : List (List Char)) (i : Nat) (t : Task),
    t ∈ parseTaskLines lines i → i ≤ t.id := by
  intro lines
  induction lines with
  | nil => intro i t h; simp [parseTaskLines] at h
  | cons line rest ih =>
    intro i t h
    unfold parseTaskLines at h
    split at h
    · rcases List.mem_cons.mp h with rfl | hmem
      · exact Nat.le_refl i
      · exact Nat.le_of_succ_le (ih (i + 1) t hmem)
    · exact Nat.le_of_succ_le (ih (i + 1) t h)

/-- Every extracted task comes from the line at position `id - i` of the
list (0-based), which is non-empty after stripping and starts with the
literal `Task id:`; the description is the stripped text after the first
colon and the status is `pending`. -/
theorem parseTaskLines_mem : ∀ (lines : List (List Char)) (i : Nat) (t : Task),
    t ∈ parseTaskLines lines i →
    ∃ line, lines.get? (t.id - i) = some line
      ∧ ¬(pyStrip line = [])
      ∧ listStartsWith ("Task ".data ++ (Nat.repr t.id).data ++ [':']) (pyStrip line) = true
      ∧ t.description = pyStrip (afterFirstChar ':' line)
      ∧ t.status = "pending".data := by
  intro lines
  induction lines with
  | nil => intro i t h; simp [parseTaskLines] at h
  | cons line rest ih =>
    intro i t h
    unfold parseTaskLines at h
    split at h
    case isTrue hcond =>
      rcases List.mem_cons.mp h with rfl | hmem
      · simp only [Bool.and_eq_true, Bool.not_eq_true'] at hcond
        refine ⟨line, ?_, ?_, ?_, rfl, rfl⟩
        · simp
        · intro hnil
          rw [hnil] at hcond
          simp at hcond
        · exact hcond.2
      · have hge := parseTaskLines_id_ge rest (i + 1) t hmem
        obtain ⟨l2, hget, hrest⟩ := ih (i + 1) t hmem
        refine ⟨l2, ?_, hrest⟩
        have harith : t.id - i = (t.id - (i + 1)) + 1 := by omega
        rw [harith]
        simpa using hget
    case isFalse =>
      have hge := parseTaskLines_id_ge rest (i + 1) t h
      obtain ⟨l2, hget, hrest⟩ := ih (i + 1) t h
      refine ⟨l2, ?_, hrest⟩
      have harith : t.id - i = (t.id - (i + 1)) + 1 := by omega
      rw [harith]
      simpa using hget

/-- C1 (amended): a line is accepted as task `i` exactly by its 1-based
POSITION among all lines of the block — every extracted task with id `i`
comes from the line at position `i`, which is non-empty and begins with
the literal `Task i:` — and the block `Task 1: A` / `Task 3: B` yields
exactly one task (id 1, description `A`).  The running count of accepted
lines plays no role (see the counterexample). -/
theorem C1_task_extraction :
    (∀ (text : List Char) (t : Task), t ∈ extract_tasks text →
        ∃ line, (pySplit ['\n'] text).get? (t.id - 1) = some line
          ∧ ¬(pyStrip line = [])
          ∧ listStartsWith ("Task ".data ++ (Nat.repr t.id).data ++ [':']) (pyStrip line) = true
          ∧ t.description = pyStrip (afterFirstChar ':' line)
          ∧ t.status = "pending".data)
    ∧ extract_tasks "Task 1: A\nTask 3: B".data
        = [{ id := 1, description := "A".data, status := "pending".data }] := by
  refine ⟨?_, by decide⟩
  intro text t h
  unfold extract_tasks at h
  exact parseTaskLines_mem (pySplit ['\n'] text) 1 t h

/-- Witness for C1 at a concrete block: the single task of `Task 1: A`
comes from line 1 with the required shape. -/
theorem C1_task_extraction_witness :
    ∃ line, (pySplit ['\n'] "Task 1: A".data).get? 0 = some line
      ∧ ¬(pyStrip line = [])
      ∧ listStartsWith ("Task ".data ++ (Nat.repr 1).data ++ [':']) (pyStrip line) = true
      ∧ "A".data = pyStrip (afterFirstChar ':' line)
      ∧ "pending".data = "pending".data :=
  C1_task_extraction.1 "Task 1: A".data
    { id := 1, description := "A".data, status := "pending".data } (by decide)

/-- Counterexample for C1 as stated: in the block consisting of an empty
first line and `Task 2: B`, the running count of accepted lines is 0 when
`Task 2: B` is reached, so under the claim the line must begin with
`Task 1:` and be skipped (yielding no tasks); the code instead accepts it
as task 2, because the index it checks is the line's position, not the
count of accepted lines. -/
theorem C1_task_extraction_counterexample :
    extract_tasks ("\nTask 2: B").data
      = [{ id := 2, description := "B".data, status := "pending".data }] := by decide

/-! ## Lemmas about the agent loop -/

/-- One reasoning step appends exactly the produced step to the trace,
leaves the iteration counter and task list untouched, and makes one or two
model generations. -/
theorem reason_and_act_state (cfg : Config) (w : World) (task : Task) (s : AgentState) :
    (reason_and_act cfg w task s).2.steps = s.steps ++ [(reason_and_act cfg w task s).1]
    ∧ (reason_and_act cfg w task s).2.iterationCount = s.iterationCount
    ∧ (reason_and_act cfg w task s).2.tasks = s.tasks
    ∧ s.genCount + 1 ≤ (reason_and_act cfg w task s).2.genCount
    ∧ (reason_and_act cfg w task s).2.genCount ≤ s.genCount + 2 := by
  cases hp : parse_tool_calls (pyStrip (w.gen s.genCount)) with
  | nil => simp [reason_and_act, genStep, hp]
  | cons tc tcs => simp [reason_and_act, genStep, hp]

/-- Rewriting the last element of a trace that ends in `x`. -/
theorem setLast_concat (l : List ReasoningStep) (x y : ReasoningStep) :
    setLast (l ++ [x]) y = l ++ [y] := by
  simp [setLast]

/-- The back-patched trace still extends the pre-step trace. -/
theorem steps_fact (r2 s : AgentState) (old y : ReasoningStep)
    (h : r2.steps = s.steps ++ [old]) :
    ∃ x, ({ r2 with steps := setLast r2.steps y } : AgentState).steps = s.steps ++ x :=
  ⟨[y], by simp [h, setLast_concat]⟩

/-- Folding one continuing loop iteration into the invariant. -/
theorem LoopInv_continue (cfg : Config) (w : World) (fuel : Nat) (task : Task)
    (s s2 : AgentState)
    (ih : ∀ (task : Task) (s : AgentState), LoopInv cfg w fuel task s)
    (h1 : ∃ y, s2.steps = s.steps ++ y)
    (h2 : s2.iterationCount = s.iterationCount + 1)
    (h3 : s2.tasks = s.tasks)
    (h4 : s2.genCount ≤ s.genCount + 2)
    (hb : ¬ cfg.maxIterations ≤ s.iterationCount) :
    (∃ t, (taskLoop cfg w fuel task s2).2.steps = s.steps ++ t)
    ∧ s.iterationCount ≤ (taskLoop cfg w fuel task s2).2.iterationCount
    ∧ (taskLoop cfg w fuel task s2).2.iterationCount ≤ max s.iterationCount cfg.maxIterations
    ∧ (taskLoop cfg w fuel task s2).2.genCount + 2 * s.iterationCount
        ≤ s.genCount + 2 * (taskLoop cfg w fuel task s2).2.iterationCount
    ∧ (taskLoop cfg w fuel task s2).2.tasks = s.tasks
    ∧ (cfg.maxIterations ≤ s.iterationCount → taskLoop cfg w fuel task s2 = (task, s)) := by
  obtain ⟨y, hy⟩ := h1
  obtain ⟨⟨t1, ht1⟩, hm, hmax, hg, htk, _⟩ := ih task s2
  rw [hy] at ht1
  refine ⟨⟨y ++ t1, by rw [ht1, List.append_assoc]⟩, by omega, by omega, by omega,
    htk.trans h3, fun hc => absurd hc hb⟩

/-- The stopping (task-completed) loop iteration satisfies the invariant. -/
theorem LoopInv_stop (cfg : Config) (task tsk2 : Task) (s s2 : AgentState)
    (h1 : ∃ y, s2.steps = s.steps ++ y)
    (h2 : s2.iterationCount = s.iterationCount + 1)
    (h3 : s2.tasks = s.tasks)
    (h4 : s2.genCount ≤ s.genCount + 2)
    (hb : ¬ cfg.maxIterations ≤ s.iterationCount) :
    (∃ t, s2.steps = s.steps ++ t)
    ∧ s.iterationCount ≤ s2.iterationCount
    ∧ s2.iterationCount ≤ max s.iterationCount cfg.maxIterations
    ∧ s2.genCount + 2 * s.iterationCount ≤ s.genCount + 2 * s2.iterationCount
    ∧ s2.tasks = s.tasks
    ∧ (cfg.maxIterations ≤ s.iterationCount → ((tsk2, s2) : Task × AgentState) = (task, s)) := by
  exact ⟨h1, by omega, by omega, by omega, h3, fun hc => absurd hc hb⟩

/-- The per-task loop invariant holds for every fuel, task and state. -/
theorem taskLoop_inv (cfg : Config) (w : World) :
    ∀ (fuel : Nat) (task : Task) (s : AgentState), LoopInv cfg w fuel task s := by
  intro fuel
  induction fuel with
  | zero =>
    intro task s
    unfold LoopInv taskLoop
    exact ⟨⟨[], by simp⟩, Nat.le_refl _, Nat.le_max_left _ _, Nat.le_refl _, rfl, fun _ => rfl⟩
  | succ fuel ih =>
    intro task s
    unfold LoopInv
    by_cases hb : cfg.maxIterations ≤ s.iterationCount
    · simp only [taskLoop]
      rw [if_pos hb]
      exact ⟨⟨[], by simp⟩, Nat.le_refl _, Nat.le_max_left _ _, Nat.le_refl _, rfl, fun _ => rfl⟩
    · obtain ⟨hsteps, hiter, htasks, hgen1, hgen2⟩ :=
        reason_and_act_state cfg w task { s with iterationCount := s.iterationCount + 1 }
      simp only at hsteps hiter htasks hgen1 hgen2
      simp only [taskLoop]
      rw [if_neg hb]
      split
      all_goals try split
      all_goals try split
      all_goals try split
      all_goals try split
      all_goals first
        | exact LoopInv_stop cfg task _ s _
            (steps_fact _ _ _ _ hsteps) (by simpa using hiter)
            (by simpa using htasks) (by simpa using hgen2) hb
        | exact LoopInv_continue cfg w fuel task s _ ih
            (steps_fact _ _ _ _ hsteps) (by simpa using hiter)
            (by simpa using htasks) (by simpa using hgen2) hb

/-- Every task leaves `runTask` either completed or failed. -/
theorem runTask_status (cfg : Config) (w : World) (task : Task) (s : AgentState) :
    (runTask cfg w task s).1.status = "completed".data
    ∨ (runTask cfg w task s).1.status = "failed".data := by
  simp only [runTask]
  split
  · right; rfl
  · left
    rename_i h
    simpa using h

/-- The task-list loop invariant holds for every task list and state. -/
theorem processTasks_inv (cfg : Config) (w : World) :
    ∀ (ts : List Task) (s : AgentState), ProcInv cfg w ts s := by
  intro ts
  induction ts with
  | nil =>
    intro s
    unfold ProcInv processTasks
    exact ⟨⟨[], by simp⟩, Nat.le_refl _, Nat.le_max_left _ _, Nat.le_refl _,
      fun _ => rfl, by simp⟩
  | cons t ts ih =>
    intro s
    unfold ProcInv
    simp only [processTasks]
    have hrt : (runTask cfg w t s).2
        = (taskLoop cfg w cfg.maxReasoningSteps { t with status := "in-progress".data } s).2 := rfl
    obtain ⟨⟨t1, h1⟩, hm1, hmax1, hg1, _, hn1⟩ :=
      taskLoop_inv cfg w cfg.maxReasoningSteps { t with status := "in-progress".data } s
    obtain ⟨⟨t2, h2⟩, hm2, hmax2, hg2, hn2, hs2⟩ := ih (runTask cfg w t s).2
    rw [hrt] at h2 hm2 hmax2 hg2 hn2 hs2
    rw [hrt]
    refine ⟨⟨t1 ++ t2, by rw [h2, h1, List.append_assoc]⟩, by omega, by omega, by omega,
      ?_, ?_⟩
    · intro hc
      have hTL := hn1 hc
      have hTL2 : (taskLoop cfg w cfg.maxReasoningSteps
          { t with status := "in-progress".data } s).2 = s := by rw [hTL]
      rw [hTL2]
      exact ((ih s).2.2.2.2.1) hc
    · intro x hx
      rcases List.mem_cons.mp hx with rfl | hmem
      · exact runTask_status cfg w t s
      · exact hs2 x hmem

/-- The planner leaves the trace and the iteration counter untouched and
makes exactly one model generation. -/
theorem create_task_list_state (w : World) (goal : List Char) (s : AgentState) :
    (create_task_list w goal s).2.steps = s.steps
    ∧ (create_task_list w goal s).2.iterationCount = s.iterationCount
    ∧ (create_task_list w goal s).2.genCount = s.genCount + 1 := by
  simp [create_task_list, genStep]

/-- C3 (amended): starting from a fresh counter, a run performs at most
`max_iterations` loop iterations (the result's `iterations` field), and —
since the planner generates once and every iteration generates at most
twice — at most `1 + 2 * max_iterations` model generations in total, not
`max_iterations` as claimed (see the counterexample). -/
theorem C3_generation_budget (cfg : Config) (w : World) (goal : List Char) (s : AgentState)
    (h : s.iterationCount = 0) :
    (Agent.run cfg w goal s).1.iterations ≤ cfg.maxIterations
    ∧ (Agent.run cfg w goal s).2.genCount ≤ s.genCount + 1 + 2 * cfg.maxIterations := by
  obtain ⟨hs, hi, hg⟩ := create_task_list_state w goal s
  obtain ⟨_, hm2, hmax2, hg2, _, _⟩ :=
    processTasks_inv cfg w (create_task_list w goal s).1 (create_task_list w goal s).2
  have hiter : (Agent.run cfg w goal s).1.iterations
      = (processTasks cfg w (create_task_list w goal s).1
          (create_task_list w goal s).2).2.iterationCount := rfl
  have hgen : (Agent.run cfg w goal s).2.genCount
      = (processTasks cfg w (create_task_list w goal s).1
          (create_task_list w goal s).2).2.genCount := rfl
  rw [hiter, hgen]
  constructor
  · omega
  · omega

/-- Witness for C3 (amended) at the default configuration from a fresh
state. -/
theorem C3_generation_budget_witness :
    (Agent.run cfg0 w0 "g".data initialAgentState).1.iterations ≤ cfg0.maxIterations
    ∧ (Agent.run cfg0 w0 "g".data initialAgentState).2.genCount
        ≤ initialAgentState.genCount + 1 + 2 * cfg0.maxIterations :=
  C3_generation_budget cfg0 w0 "g".data initialAgentState (by decide)

/-- Counterexample for C3 as stated: with `max_iterations = 1`, a run in
which the planner yields one task and the first reasoning step emits a tool
call performs 3 model generations in total — 1 for planning plus 2 inside
the loop — so the loop alone already exceeds the claimed `max_iterations`
bound on generations. -/
theorem C3_generation_budget_counterexample :
    (Agent.run cfgOne wPlan "demo".data initialAgentState).2.genCount = 3
    ∧ (create_task_list wPlan "demo".data initialAgentState).2.genCount = 1
    ∧ cfgOne.maxIterations = 1 := by decide

/-- C5: when `run` returns, every task in the result is `completed` or
`failed`, and `success` holds exactly when every task is `completed`
(vacuously true for an empty plan). -/
theorem C5_terminal_statuses (cfg : Config) (w : World) (goal : List Char) (s : AgentState) :
    (∀ t ∈ (Agent.run cfg w goal s).1.tasks,
        t.status = "completed".data ∨ t.status = "failed".data)
    ∧ ((Agent.run cfg w goal s).1.success = true ↔
        ∀ t ∈ (Agent.run cfg w goal s).1.tasks, t.status = "completed".data) := by
  constructor
  · intro t ht
    exact (processTasks_inv cfg w (create_task_list w goal s).1
      (create_task_list w goal s).2).2.2.2.2.2 t ht
  · have hsucc : (Agent.run cfg w goal s).1.success
        = (Agent.run cfg w goal s).1.tasks.all (fun t => t.status = "completed".data) := rfl
    rw [hsucc, List.all_eq_true]
    simp only [decide_eq_true_eq]

/-- Witness for C5: a run whose only task completes reports success. -/
theorem C5_terminal_statuses_witness :
    (Agent.run cfg0 wPlain "Check if a command-line tool is installed".data
      initialAgentState).1.success = true :=
  (C5_terminal_statuses cfg0 wPlain
    "Check if a command-line tool is installed".data initialAgentState).2.mpr (by decide)

/-- C8: when the generated response parses to no tool calls, the recorded
step has action `complete` and observation `Task reasoning completed`, and
the loop then marks the task completed and stops after this single
iteration (one generation, no regeneration); the final trace keeps the
step with its observation back-patched to `Task marked as complete`. -/
theorem C8_no_calls_completes (cfg : Config) (w : World) (fuel : Nat) (task : Task)
    (s : AgentState)
    (hbudget : s.iterationCount < cfg.maxIterations)
    (hparse : parse_tool_calls (pyStrip (w.gen s.genCount)) = []) :
    (reason_and_act cfg w task { s with iterationCount := s.iterationCount + 1 }).1
      = ReasoningStep.mk (pyStrip (w.gen s.genCount)) (some "complete".data)
          (some "Task reasoning completed".data)
    ∧ (reason_and_act cfg w task { s with iterationCount := s.iterationCount + 1 }).2.steps
      = s.steps ++ [ReasoningStep.mk (pyStrip (w.gen s.genCount)) (some "complete".data)
          (some "Task reasoning completed".data)]
    ∧ (taskLoop cfg w (fuel + 1) task s).1.status = "completed".data
    ∧ (taskLoop cfg w (fuel + 1) task s).2.iterationCount = s.iterationCount + 1
    ∧ (taskLoop cfg w (fuel + 1) task s).2.genCount = s.genCount + 1
    ∧ (taskLoop cfg w (fuel + 1) task s).2.steps
      = s.steps ++ [ReasoningStep.mk (pyStrip (w.gen s.genCount)) (some "complete".data)
          (some "Task marked as complete".data)] := by
  have hb : ¬ cfg.maxIterations ≤ s.iterationCount := by omega
  have hra : reason_and_act cfg w task { s with iterationCount := s.iterationCount + 1 }
      = (ReasoningStep.mk (pyStrip (w.gen s.genCount)) (some "complete".data)
           (some "Task reasoning completed".data),
         { tasks := s.tasks
           steps := s.steps ++ [ReasoningStep.mk (pyStrip (w.gen s.genCount))
             (some "complete".data) (some "Task reasoning completed".data)]
           iterationCount := s.iterationCount + 1
           genCount := s.genCount + 1 }) := by
    simp [reason_and_act, genStep, hparse]
  have hTL : taskLoop cfg w (fuel + 1) task s
      = ({ task with status := "completed".data },
         { tasks := s.tasks
           steps := s.steps ++ [ReasoningStep.mk (pyStrip (w.gen s.genCount))
             (some "complete".data) (some "Task marked as complete".data)]
           iterationCount := s.iterationCount + 1
           genCount := s.genCount + 1 }) := by
    simp only [taskLoop]
    rw [if_neg hb]
    rw [hra]
    simp [setLast, List.dropLast_concat]
  refine ⟨by rw [hra], by rw [hra], by rw [hTL], by rw [hTL], by rw [hTL], by rw [hTL]⟩

/-- Witness for C8 at a concrete task and the empty-response world. -/
theorem C8_no_calls_completes_witness :
    (taskLoop cfg0 w0 1 { id := 1, description := "t".data } initialAgentState).1.status
        = "completed".data
    ∧ (taskLoop cfg0 w0 1 { id := 1, description := "t".data } initialAgentState).2.iterationCount
        = 1 :=
  ⟨(C8_no_calls_completes cfg0 w0 0 { id := 1, description := "t".data }
      initialAgentState (by decide) (by decide)).2.2.1,
   (C8_no_calls_completes cfg0 w0 0 { id := 1, description := "t".data }
      initialAgentState (by decide) (by decide)).2.2.2.1⟩

/-- C10: `run` never resets `reasoning_steps` or `iteration_count`: a
second run's trace extends the first run's trace, its `iterations` value is
cumulative (never smaller, still capped by the shared `max_iterations`
ceiling), and when the first run already exhausted the budget the second
run records no new steps and no new iterations. -/
theorem C10_state_persists (cfg : Config) (w1 w2 : World) (goal1 goal2 : List Char)
    (s0 : AgentState) :
    (∃ t, (Agent.run cfg w2 goal2 (Agent.run cfg w1 goal1 s0).2).1.reasoning_steps
        = (Agent.run cfg w1 goal1 s0).1.reasoning_steps ++ t)
    ∧ (Agent.run cfg w1 goal1 s0).1.iterations
        ≤ (Agent.run cfg w2 goal2 (Agent.run cfg w1 goal1 s0).2).1.iterations
    ∧ (Agent.run cfg w2 goal2 (Agent.run cfg w1 goal1 s0).2).1.iterations
        ≤ max (Agent.run cfg w1 goal1 s0).1.iterations cfg.maxIterations
    ∧ (cfg.maxIterations ≤ (Agent.run cfg w1 goal1 s0).1.iterations →
        (Agent.run cfg w2 goal2 (Agent.run cfg w1 goal1 s0).2).1.reasoning_steps
          = (Agent.run cfg w1 goal1 s0).1.reasoning_steps
        ∧ (Agent.run cfg w2 goal2 (Agent.run cfg w1 goal1 s0).2).1.iterations
          = (Agent.run cfg w1 goal1 s0).1.iterations) := by
  set s1 := (Agent.run cfg w1 goal1 s0).2 with hs1
  obtain ⟨hcs, hci, hcg⟩ := create_task_list_state w2 goal2 s1
  obtain ⟨⟨t2, hp2⟩, hm2, hmax2, hg2, hn2, _⟩ :=
    processTasks_inv cfg w2 (create_task_list w2 goal2 s1).1 (create_task_list w2 goal2 s1).2
  have hres1 : (Agent.run cfg w1 goal1 s0).1.reasoning_steps = s1.steps := rfl
  have hres1i : (Agent.run cfg w1 goal1 s0).1.iterations = s1.iterationCount := rfl
  have hres2 : (Agent.run cfg w2 goal2 s1).1.reasoning_steps
      = (processTasks cfg w2 (create_task_list w2 goal2 s1).1
          (create_task_list w2 goal2 s1).2).2.steps := rfl
  have hres2i : (Agent.run cfg w2 goal2 s1).1.iterations
      = (processTasks cfg w2 (create_task_list w2 goal2 s1).1
          (create_task_list w2 goal2 s1).2).2.iterationCount := rfl
  refine ⟨⟨t2, ?_⟩, ?_, ?_, ?_⟩
  · rw [hres2, hres1, hp2, hcs]
  · rw [hres2i, hres1i]; omega
  · rw [hres2i, hres1i]; omega
  · intro hc
    rw [hres1i] at hc
    have hstate : (processTasks cfg w2 (create_task_list w2 goal2 s1).1
        (create_task_list w2 goal2 s1).2).2 = (create_task_list w2 goal2 s1).2 := by
      apply hn2
      omega
    constructor
    · rw [hres2, hres1, hstate, hcs]
    · rw [hres2i, hres1i, hstate, hci]

/-- Witness for C10: with a zero iteration budget the first run exhausts
the budget immediately, and a second run on the same agent state adds no
steps and no iterations. -/
theorem C10_state_persists_witness :
    (Agent.run cfgZero w0 "b".data (Agent.run cfgZero w0 "a".data initialAgentState).2).1.reasoning_steps
      = (Agent.run cfgZero w0 "a".data initialAgentState).1.reasoning_steps
    ∧ (Agent.run cfgZero w0 "b".data (Agent.run cfgZero w0 "a".data initialAgentState).2).1.iterations
      = (Agent.run cfgZero w0 "a".data initialAgentState).1.iterations :=
  (C10_state_persists cfgZero w0 w0 "a".data "b".data initialAgentState).2.2.2 (by decide)

end Agent86
